import Mathlib

/-!
Verification of the grammar-item-graph compiler in `src/rule.rs` and its
forward-reference arena in `src/util/arena.rs`.

The Rust code is shallowly embedded as follows:
* `Class`, `Combinator`, `Item` mirror the types of the same names in
  `rule.rs`; an `ItemRef` (a `ForwardRef` into the arena) is modelled as a
  `Nat` index into the arena's list of write-once cells.
* A `OnceCell` (from the `once_cell` crate, wrapped by `ForwardCell` /
  `ForwardRef` in `util/arena.rs`) is an `Option`: `OnceCell.set` keeps the
  first bound value and ignores later binds, exactly as
  `OnceCell::set(..).ok()` does in `ForwardCell::set`.
* The trait objects implementing `Rule` (`Seq`, `Choice`, `Term` and the
  private `Elide` wrapper) become the constructors of the inductive `Rule`,
  and `RuleKey` mirrors the `RuleKey` enum (`Ref` / `Lookup`).
* `do_build_grammar` and the `build_item` methods are mutually recursive
  through trait dispatch; they are embedded as the fuel-indexed mutual
  functions `doBuildGrammar` / `buildItem`.  The fuel models the Rust call
  stack: every call consumes one unit and running out is the stack-overflow
  of a non-terminating grammar, reported as `BuildError.outOfFuel`.
* Rust panics are embedded as `Except.error`: the `unwrap` on the grammar
  lookup in `do_build_grammar` becomes `BuildError.unknownRuleName`, the
  `unwrap` on `String::from_utf8` in `Term::build_item` becomes
  `BuildError.invalidUtf8Name`, and the `unwrap` on the root handle in
  `build_items` becomes `BuildError.rootUnbuilt`.
* The builder state `BState` carries the arena cells and the memo table
  (`lookup` in `GrammarBuilder`).  It additionally carries two ghost fields,
  `resolved` and `hits`, that record resolution events and never influence
  control flow: `resolved` lists the names whose grammar rule's `build_item`
  was invoked, and `hits` records every handle returned for a `Lookup` key.
-/

deriving instance DecidableEq for Except

namespace Quentin

/-- `Class` from rule.rs: the tag controlling how a consumer treats a node. -/
inductive Class where
  | normal
  | passthrough
  | elide
deriving DecidableEq, Repr

/-- `Combinator` from rule.rs.  The two `ItemRef` operands of `Seq` and
`Choice` are arena indices. -/
inductive Combinator where
  | seq (a b : Nat)
  | choice (a b : Nat)
  | term (v : Nat)
  | done
  | empty
deriving DecidableEq, Repr

/-- `Item` from rule.rs: a combinator, a class tag, and a display name. -/
structure Item where
  combinator : Combinator
  cls : Class
  name : String
deriving DecidableEq, Repr

mutual
/-- The rule algebra of rule.rs: the `Seq`, `Choice` and `Term` structs and
the private `Elide<R>` wrapper, each an implementation of the `Rule` trait. -/
inductive Rule where
  | seq (name : String) (rules : List RuleKey)
  | choice (name : String) (rules : List RuleKey) (passthrough : Bool)
  | term (val : Nat)
  | elide (r : Rule)

/-- `RuleKey` from rule.rs: a direct reference to a rule value, or a named
lookup into the grammar registry. -/
inductive RuleKey where
  | ref (r : Rule)
  | lookup (k : String)
end

/-- `Grammar` from rule.rs: a map from name to rule.  `HashMap::insert`
replaces, so the model prepends and `grammarGet` takes the first match. -/
def Grammar := List (String × Rule)

/-- `Grammar::get`. -/
def grammarGet (g : Grammar) (k : String) : Option Rule :=
  match g with
  | [] => none
  | (n, r) :: rest => if n = k then some r else grammarGet rest k

/-- `Grammar::put` (`HashMap::insert`: last write wins). -/
def grammarPut (g : Grammar) (n : String) (r : Rule) : Grammar :=
  (n, r) :: g

/-- `once_cell::unsync::OnceCell`, the write-once cell wrapped by
`ForwardCell` / `ForwardRef` in util/arena.rs. -/
abbrev OnceCell (T : Type) := Option T

/-- `OnceCell::new`: an empty, not-yet-bound cell. -/
def OnceCell.new {T : Type} : OnceCell T := none

/-- `ForwardCell::set`: `self.cell.set(..).ok()` binds the cell if it is
empty and silently keeps the first value otherwise. -/
def OnceCell.set {T : Type} (c : OnceCell T) (t : T) : OnceCell T :=
  match c with
  | some v => some v
  | none => some t

/-- `ForwardRef::get`: the bound value, or `none` before any bind. -/
def OnceCell.get {T : Type} (c : OnceCell T) : Option T := c

/-- Replace the element at index `i` (out-of-range indices are untouched),
as `List.set` but with a function. -/
def modifyAt {α : Type} (l : List α) (i : Nat) (f : α → α) : List α :=
  match l, i with
  | [], _ => []
  | x :: xs, 0 => f x :: xs
  | x :: xs, n + 1 => x :: modifyAt xs n f

/-- The state of one in-flight `GrammarBuilder` from rule.rs: the
`ForwardArena` of write-once item cells and the `lookup` memo table.
`resolved` and `hits` are ghost instrumentation (see the module comment):
they are only appended to and never read by the builder. -/
structure BState where
  cells : List (OnceCell Item)
  lookup : List (String × Nat)
  resolved : List String
  hits : List (String × Nat)
deriving DecidableEq, Repr

/-- `ForwardArena::forward`: reserve a fresh unbound cell; its handle is the
index `cells.length` of the state passed in. -/
def allocState (s : BState) : BState :=
  { s with cells := s.cells ++ [OnceCell.new] }

/-- `ForwardCell::set` at the arena level: bind cell `i` (write-once). -/
def setCell (s : BState) (i : Nat) (it : Item) : BState :=
  { s with cells := modifyAt s.cells i (fun c => OnceCell.set c it) }

/-- Read the item bound at handle `h`, if any (`ForwardRef::get`; a handle
out of arena bounds cannot arise in the Rust code and reads as `none`). -/
def getCell (s : BState) (h : Nat) : Option Item :=
  match s.cells[h]? with
  | some c => OnceCell.get c
  | none => none

/-- `HashMap::get` on the memo table (keys are inserted at most once, so
first match is the unique match). -/
def findHandle (l : List (String × Nat)) (k : String) : Option Nat :=
  match l with
  | [] => none
  | (n, h) :: rest => if n = k then some h else findHandle rest k

/-- The failure modes of a build.  Rust panics are embedded as errors:
`unknownRuleName` is the `unwrap` on `grammar.get(k)` in `do_build_grammar`,
`invalidUtf8Name` is the `unwrap` on `String::from_utf8` in
`Term::build_item`, `rootUnbuilt` is the `unwrap` on the root handle in
`build_items`, and `outOfFuel` is call-stack exhaustion. -/
inductive BuildError where
  | unknownRuleName (name : String)
  | invalidUtf8Name (v : Nat)
  | rootUnbuilt
  | outOfFuel
deriving DecidableEq, Repr

/-- The display name of a terminal item:
`String::from_utf8([val].to_vec()).unwrap()`.  A lone byte is valid UTF-8
exactly when it is ASCII (`< 128`); otherwise the `unwrap` panics. -/
def byteName (v : Nat) : Except BuildError String :=
  if v < 128 then .ok (String.mk [Char.ofNat v]) else .error (.invalidUtf8Name v)

mutual
/-- `do_build_grammar` from rule.rs.  For a `Ref` key: reserve a cell, build
the rule's item with this same procedure as the resolver, bind the cell.
For a `Lookup` key: a memo hit returns the stored handle immediately;
otherwise the fresh cell's handle is memoized *before* the grammar rule is
built (the cycle breaker), and a missing grammar entry is the
`unwrap` panic `BuildError.unknownRuleName`. -/
def doBuildGrammar : Nat → Grammar → RuleKey → BState → Except BuildError (Nat × BState)
  | 0, _, _, _ => .error .outOfFuel
  | fuel + 1, g, .ref r, s =>
      (buildItem fuel g r (allocState s)).map
        (fun p => (s.cells.length, setCell p.2 s.cells.length p.1))
  | fuel + 1, g, .lookup k, s =>
      match findHandle s.lookup k with
      | some pending => .ok (pending, { s with hits := (k, pending) :: s.hits })
      | none =>
          let i := s.cells.length
          let s₂ : BState :=
            { cells := s.cells ++ [OnceCell.new]
              lookup := (k, i) :: s.lookup
              resolved := k :: s.resolved
              hits := (k, i) :: s.hits }
          match grammarGet g k with
          | none => .error (.unknownRuleName k)
          | some rule =>
              (buildItem fuel g rule s₂).map (fun p => (i, setCell p.2 i p.1))

/-- The `build_item` methods of the `Rule` implementations in rule.rs, with
`doBuildGrammar` as the resolver closure.  `Seq`/`Choice` over a non-empty
list resolve the head and then the tail re-wrapped as an `Elide`-decorated
rule named "(elided)" over the remaining elements (`Choice` also produces
`Combinator::Seq` nodes, and its inner tail `Choice::new` has
`passthrough = false`). -/
def buildItem : Nat → Grammar → Rule → BState → Except BuildError (Item × BState)
  | 0, _, _, _ => .error .outOfFuel
  | _ + 1, _, .term v, s =>
      (byteName v).map (fun nm => ({ combinator := .term v, cls := .normal, name := nm }, s))
  | _ + 1, _, .seq nm [], s =>
      .ok ({ combinator := .empty, cls := .normal, name := nm }, s)
  | fuel + 1, g, .seq nm (k :: rest), s =>
      (doBuildGrammar fuel g k s).bind (fun p₁ =>
        (doBuildGrammar fuel g (.ref (.elide (.seq "(elided)" rest))) p₁.2).map (fun p₂ =>
          ({ combinator := .seq p₁.1 p₂.1, cls := .normal, name := nm }, p₂.2)))
  | _ + 1, _, .choice nm [] p, s =>
      .ok ({ combinator := .empty,
             cls := if p then .passthrough else .normal, name := nm }, s)
  | fuel + 1, g, .choice nm (k :: rest) p, s =>
      (doBuildGrammar fuel g k s).bind (fun p₁ =>
        (doBuildGrammar fuel g (.ref (.elide (.choice "(elided)" rest false))) p₁.2).map (fun p₂ =>
          ({ combinator := .seq p₁.1 p₂.1,
             cls := if p then .passthrough else .normal, name := nm }, p₂.2)))
  | fuel + 1, g, .elide r, s =>
      (buildItem fuel g r s).map (fun p =>
        ({ combinator := p.1.combinator, cls := .elide, name := "(elided)" }, p.2))
end

/-- The empty builder state of a fresh `ItemSetAllocator` / `GrammarBuilder`. -/
def initState : BState :=
  { cells := [], lookup := [], resolved := [], hits := [] }

/-- `ItemSet` from rule.rs: the arena contents plus the root handle. -/
structure ItemSet where
  root : Nat
  cells : List (OnceCell Item)
deriving DecidableEq, Repr

/-- `build_items` from rule.rs: build the root rule as a `Ref` key from a
fresh builder state and `unwrap` the root handle. -/
def buildItems (fuel : Nat) (g : Grammar) (r : Rule) : Except BuildError ItemSet :=
  match doBuildGrammar fuel g (.ref r) initState with
  | .error e => .error e
  | .ok (h, s) =>
      match getCell s h with
      | none => .error .rootUnbuilt
      | some _ => .ok { root := h, cells := s.cells }

/-! ### Basic lemmas about the embedding -/

theorem except_map_ok {ε α β : Type} (f : α → β) (e : Except ε α) (b : β) :
    e.map f = .ok b ↔ ∃ a, e = .ok a ∧ f a = b := by
  cases e <;> simp [Except.map]

theorem except_bind_ok {ε α β : Type} (f : α → Except ε β) (e : Except ε α) (b : β) :
    e.bind f = .ok b ↔ ∃ a, e = .ok a ∧ f a = .ok b := by
  cases e <;> simp [Except.bind]

@[simp] theorem allocState_lookup (s : BState) : (allocState s).lookup = s.lookup := rfl

@[simp] theorem allocState_resolved (s : BState) : (allocState s).resolved = s.resolved := rfl

@[simp] theorem allocState_hits (s : BState) : (allocState s).hits = s.hits := rfl

@[simp] theorem allocState_cells (s : BState) :
    (allocState s).cells = s.cells ++ [OnceCell.new] := rfl

@[simp] theorem setCell_lookup (s : BState) (i : Nat) (it : Item) :
    (setCell s i it).lookup = s.lookup := rfl

@[simp] theorem setCell_resolved (s : BState) (i : Nat) (it : Item) :
    (setCell s i it).resolved = s.resolved := rfl

@[simp] theorem setCell_hits (s : BState) (i : Nat) (it : Item) :
    (setCell s i it).hits = s.hits := rfl

@[simp] theorem setCell_cells (s : BState) (i : Nat) (it : Item) :
    (setCell s i it).cells = modifyAt s.cells i (fun c => OnceCell.set c it) := rfl

theorem findHandle_cons (n : String) (h : Nat) (l : List (String × Nat)) (q : String) :
    findHandle ((n, h) :: l) q = if n = q then some h else findHandle l q := rfl

@[simp] theorem modifyAt_length {α : Type} (l : List α) (i : Nat) (f : α → α) :
    (modifyAt l i f).length = l.length := by
  induction l generalizing i with
  | nil => rfl
  | cons x xs ih => cases i <;> simp [modifyAt, ih]

theorem modifyAt_getElem_self {α : Type} (l : List α) (i : Nat) (f : α → α) :
    (modifyAt l i f)[i]? = (l[i]?).map f := by
  induction l generalizing i with
  | nil => simp [modifyAt]
  | cons x xs ih => cases i <;> simp [modifyAt, ih]

theorem modifyAt_getElem_ne {α : Type} (l : List α) (i j : Nat) (f : α → α) (h : i ≠ j) :
    (modifyAt l i f)[j]? = l[j]? := by
  induction l generalizing i j with
  | nil => simp [modifyAt]
  | cons x xs ih =>
    cases i with
    | zero => cases j with
      | zero => exact absurd rfl h
      | succ j => simp [modifyAt]
    | succ i => cases j with
      | zero => simp [modifyAt]
      | succ j => simpa [modifyAt] using ih i j (by omega)

/-- Cells are append-only and write-once: `s'` extends `s` without touching
the cells that already existed. -/
def CellsLe (s s' : BState) : Prop :=
  s.cells.length ≤ s'.cells.length ∧ ∀ i, i < s.cells.length → s'.cells[i]? = s.cells[i]?

theorem cellsLe_refl (s : BState) : CellsLe s s := ⟨le_refl _, fun _ _ => rfl⟩

theorem cellsLe_trans {s₁ s₂ s₃ : BState} (h₁ : CellsLe s₁ s₂) (h₂ : CellsLe s₂ s₃) :
    CellsLe s₁ s₃ :=
  ⟨le_trans h₁.1 h₂.1, fun i hi => by rw [h₂.2 i (lt_of_lt_of_le hi h₁.1), h₁.2 i hi]⟩

theorem cellsLe_alloc (s : BState) : CellsLe s (allocState s) := by
  refine ⟨by simp, fun i hi => ?_⟩
  simp [allocState_cells, List.getElem?_append, hi]

theorem cellsLe_of_append {s s₂ : BState} (hc : s₂.cells = s.cells ++ [OnceCell.new]) :
    CellsLe s s₂ := by
  refine ⟨by simp [hc], fun i hi => ?_⟩
  simp [hc, List.getElem?_append, hi]

theorem cellsLe_of_eq {s s₂ : BState} (hc : s₂.cells = s.cells) : CellsLe s s₂ :=
  ⟨by simp [hc], fun i _ => by simp [hc]⟩

theorem cellsLe_setCell {s s₂ : BState} (i : Nat) (it : Item)
    (hle : CellsLe s s₂) (hi : s.cells.length ≤ i) : CellsLe s (setCell s₂ i it) := by
  refine ⟨by simpa using hle.1, fun j hj => ?_⟩
  simp only [setCell_cells]
  rw [modifyAt_getElem_ne _ i j _ (by omega)]
  exact hle.2 j hj

/-- Frame property of the builder: a successful call only appends cells and
binds cells it allocated itself; every pre-existing cell slot is unchanged. -/
theorem buildFrame : ∀ fuel : Nat,
    (∀ g k s h s', doBuildGrammar fuel g k s = .ok (h, s') → CellsLe s s')
    ∧ (∀ g r s it s', buildItem fuel g r s = .ok (it, s') → CellsLe s s') := by
  intro fuel
  induction fuel with
  | zero =>
    constructor
    · intro g k s h s' hb; simp [doBuildGrammar] at hb
    · intro g r s it s' hb; simp [buildItem] at hb
  | succ fu ih =>
    obtain ⟨ihD, ihB⟩ := ih
    constructor
    · intro g k s h s' hb
      cases k with
      | ref r =>
        rw [doBuildGrammar, except_map_ok] at hb
        obtain ⟨⟨it, s₂⟩, hbi, heq⟩ := hb
        injection heq with hh hs
        subst hh; subst hs
        exact cellsLe_setCell _ _
          (cellsLe_trans (cellsLe_alloc s) (ihB _ _ _ _ _ hbi)) (le_refl _)
      | lookup k =>
        rw [doBuildGrammar] at hb
        cases hfind : findHandle s.lookup k with
        | some pending =>
          rw [hfind] at hb
          injection hb with hp
          injection hp with h1 h2
          subst h1; subst h2
          exact cellsLe_of_eq rfl
        | none =>
          rw [hfind] at hb
          cases hgr : grammarGet g k with
          | none => rw [hgr] at hb; exact absurd hb (by simp)
          | some rule =>
            rw [hgr] at hb
            rw [except_map_ok] at hb
            obtain ⟨⟨it, s₃⟩, hbi, heq⟩ := hb
            injection heq with h1 h2
            subst h1; subst h2
            exact cellsLe_setCell _ _
              (cellsLe_trans (cellsLe_of_append rfl) (ihB _ _ _ _ _ hbi)) (le_refl _)
    · intro g r s it s' hb
      cases r with
      | term v =>
        rw [buildItem, except_map_ok] at hb
        obtain ⟨nm, _, heq⟩ := hb
        injection heq with h1 h2
        subst h2
        exact cellsLe_refl s
      | seq nm rules =>
        cases rules with
        | nil =>
          rw [buildItem] at hb
          injection hb with hp
          injection hp with h1 h2
          subst h2
          exact cellsLe_refl s
        | cons k rest =>
          rw [buildItem, except_bind_ok] at hb
          obtain ⟨⟨h₁, s₁⟩, hd, hb2⟩ := hb
          rw [except_map_ok] at hb2
          obtain ⟨⟨h₂, s₂⟩, ht, heq⟩ := hb2
          injection heq with e1 e2
          subst e2
          exact cellsLe_trans (ihD _ _ _ _ _ hd) (ihD _ _ _ _ _ ht)
      | choice nm rules p =>
        cases rules with
        | nil =>
          rw [buildItem] at hb
          injection hb with hp
          injection hp with h1 h2
          subst h2
          exact cellsLe_refl s
        | cons k rest =>
          rw [buildItem, except_bind_ok] at hb
          obtain ⟨⟨h₁, s₁⟩, hd, hb2⟩ := hb
          rw [except_map_ok] at hb2
          obtain ⟨⟨h₂, s₂⟩, ht, heq⟩ := hb2
          injection heq with e1 e2
          subst e2
          exact cellsLe_trans (ihD _ _ _ _ _ hd) (ihD _ _ _ _ _ ht)
      | elide r =>
        rw [buildItem, except_map_ok] at hb
        obtain ⟨⟨it₀, s₂⟩, hbi, heq⟩ := hb
        injection heq with e1 e2
        subst e2
        exact ihB _ _ _ _ _ hbi

/-- Invariant tying the memo table to the ghost instrumentation: the names
whose `build_item` ran are exactly the memoized names, each at most once, and
every handle ever returned for a `Lookup` key is the memoized one. -/
structure Inv (s : BState) : Prop where
  nodup : s.resolved.Nodup
  memIff : ∀ n, (findHandle s.lookup n).isSome ↔ n ∈ s.resolved
  hitsOk : ∀ n h, (n, h) ∈ s.hits → findHandle s.lookup n = some h

/-- The memo table only grows: a memoized handle is never replaced. -/
def LookupMono (s s' : BState) : Prop :=
  ∀ n h, findHandle s.lookup n = some h → findHandle s'.lookup n = some h

theorem lookupMono_refl (s : BState) : LookupMono s s := fun _ _ h => h

theorem lookupMono_trans {s₁ s₂ s₃ : BState} (h₁ : LookupMono s₁ s₂)
    (h₂ : LookupMono s₂ s₃) : LookupMono s₁ s₃ :=
  fun n h hn => h₂ n h (h₁ n h hn)

/-- The state built by the memo-miss branch of `do_build_grammar`:
reserve cell `s.cells.length`, memoize it under `k`, record the ghost
events. -/
def missState (s : BState) (k : String) : BState :=
  { cells := s.cells ++ [OnceCell.new]
    lookup := (k, s.cells.length) :: s.lookup
    resolved := k :: s.resolved
    hits := (k, s.cells.length) :: s.hits }

theorem inv_missState {s : BState} {k : String} (hInv : Inv s)
    (hfind : findHandle s.lookup k = none) : Inv (missState s k) := by
  have hkres : k ∉ s.resolved := by
    intro hmem
    have hsome := (hInv.memIff k).mpr hmem
    rw [hfind] at hsome
    simp at hsome
  constructor
  · exact List.nodup_cons.mpr ⟨hkres, hInv.nodup⟩
  · intro n
    show (findHandle ((k, s.cells.length) :: s.lookup) n).isSome ↔ n ∈ k :: s.resolved
    rw [findHandle_cons]
    by_cases hkn : k = n
    · subst hkn
      simp
    · rw [if_neg hkn]
      constructor
      · intro hs
        exact List.mem_cons_of_mem _ ((hInv.memIff n).mp hs)
      · intro hmem
        rcases List.mem_cons.mp hmem with hc | hm
        · exact absurd hc.symm hkn
        · exact (hInv.memIff n).mpr hm
  · intro n hh hmem
    show findHandle ((k, s.cells.length) :: s.lookup) n = some hh
    rcases List.mem_cons.mp hmem with hc | hm
    · injection hc with hc1 hc2
      subst hc1; subst hc2
      rw [findHandle_cons, if_pos rfl]
    · have hold := hInv.hitsOk n hh hm
      rw [findHandle_cons]
      by_cases hkn : k = n
      · subst hkn
        rw [hfind] at hold
        exact absurd hold (by simp)
      · rw [if_neg hkn]
        exact hold

theorem lookupMono_missState {s : BState} {k : String}
    (hfind : findHandle s.lookup k = none) : LookupMono s (missState s k) := by
  intro n h hn
  show findHandle ((k, s.cells.length) :: s.lookup) n = some h
  rw [findHandle_cons]
  by_cases hkn : k = n
  · subst hkn
    rw [hfind] at hn
    exact absurd hn (by simp)
  · rw [if_neg hkn]
    exact hn

/-- The builder preserves `Inv` and only grows the memo table. -/
theorem buildInv : ∀ fuel : Nat,
    (∀ g k s h s', doBuildGrammar fuel g k s = .ok (h, s') → Inv s → Inv s' ∧ LookupMono s s')
    ∧ (∀ g r s it s', buildItem fuel g r s = .ok (it, s') → Inv s → Inv s' ∧ LookupMono s s') := by
  intro fuel
  induction fuel with
  | zero =>
    constructor
    · intro g k s h s' hb; simp [doBuildGrammar] at hb
    · intro g r s it s' hb; simp [buildItem] at hb
  | succ fu ih =>
    obtain ⟨ihD, ihB⟩ := ih
    constructor
    · intro g k s h s' hb hInv
      cases k with
      | ref r =>
        rw [doBuildGrammar, except_map_ok] at hb
        obtain ⟨⟨it, s₂⟩, hbi, heq⟩ := hb
        injection heq with h1 h2
        subst h1; subst h2
        have h2 := ihB _ _ _ _ _ hbi ⟨hInv.nodup, hInv.memIff, hInv.hitsOk⟩
        exact ⟨⟨h2.1.nodup, h2.1.memIff, h2.1.hitsOk⟩, h2.2⟩
      | lookup k =>
        rw [doBuildGrammar] at hb
        cases hfind : findHandle s.lookup k with
        | some pending =>
          rw [hfind] at hb
          injection hb with hp
          injection hp with h1 h2
          subst h1; subst h2
          refine ⟨⟨hInv.nodup, hInv.memIff, ?_⟩, fun n h hn => hn⟩
          intro n hh hmem
          rcases List.mem_cons.mp hmem with hc | hm
          · injection hc with hc1 hc2
            subst hc1; subst hc2
            exact hfind
          · exact hInv.hitsOk _ _ hm
        | none =>
          rw [hfind] at hb
          cases hgr : grammarGet g k with
          | none => rw [hgr] at hb; exact absurd hb (by simp)
          | some rule =>
            rw [hgr] at hb
            rw [except_map_ok] at hb
            obtain ⟨⟨it, s₃⟩, hbi, heq⟩ := hb
            injection heq with h1 h2
            subst h1; subst h2
            have h3 := ihB _ _ _ _ _ hbi (inv_missState hInv hfind)
            exact ⟨⟨h3.1.nodup, h3.1.memIff, h3.1.hitsOk⟩,
              lookupMono_trans (lookupMono_missState hfind) h3.2⟩
    · intro g r s it s' hb hInv
      cases r with
      | term v =>
        rw [buildItem, except_map_ok] at hb
        obtain ⟨nm, _, heq⟩ := hb
        injection heq with h1 h2
        subst h2
        exact ⟨hInv, lookupMono_refl s⟩
      | seq nm rules =>
        cases rules with
        | nil =>
          rw [buildItem] at hb
          injection hb with hp
          injection hp with h1 h2
          subst h2
          exact ⟨hInv, lookupMono_refl s⟩
        | cons k rest =>
          rw [buildItem, except_bind_ok] at hb
          obtain ⟨⟨h₁, s₁⟩, hd, hb2⟩ := hb
          rw [except_map_ok] at hb2
          obtain ⟨⟨h₂, s₂⟩, ht, heq⟩ := hb2
          injection heq with e1 e2
          subst e2
          have r1 := ihD _ _ _ _ _ hd hInv
          have r2 := ihD _ _ _ _ _ ht r1.1
          exact ⟨r2.1, lookupMono_trans r1.2 r2.2⟩
      | choice nm rules p =>
        cases rules with
        | nil =>
          rw [buildItem] at hb
          injection hb with hp
          injection hp with h1 h2
          subst h2
          exact ⟨hInv, lookupMono_refl s⟩
        | cons k rest =>
          rw [buildItem, except_bind_ok] at hb
          obtain ⟨⟨h₁, s₁⟩, hd, hb2⟩ := hb
          rw [except_map_ok] at hb2
          obtain ⟨⟨h₂, s₂⟩, ht, heq⟩ := hb2
          injection heq with e1 e2
          subst e2
          have r1 := ihD _ _ _ _ _ hd hInv
          have r2 := ihD _ _ _ _ _ ht r1.1
          exact ⟨r2.1, lookupMono_trans r1.2 r2.2⟩
      | elide r =>
        rw [buildItem, except_map_ok] at hb
        obtain ⟨⟨it₀, s₂⟩, hbi, heq⟩ := hb
        injection heq with e1 e2
        subst e2
        exact ihB _ _ _ _ _ hbi hInv

theorem except_map_map {ε α β γ : Type} (f : β → γ) (g2 : α → β) (e : Except ε α) :
    (e.map g2).map f = e.map (fun a => f (g2 a)) := by
  cases e <;> rfl

theorem except_bind_map {ε α β γ δ : Type} (e : Except ε α)
    (g : α → Except ε β) (f1 : α → β → γ) (f2 : α → β → δ) (f : δ → γ)
    (hf : ∀ a b, f1 a b = f (f2 a b)) :
    e.bind (fun a => (g a).map (f1 a)) = (e.bind (fun a => (g a).map (f2 a))).map f := by
  cases e with
  | error e => rfl
  | ok a =>
    show (g a).map (f1 a) = ((g a).map (f2 a)).map f
    cases g a with
    | error e => rfl
    | ok b => show Except.ok (f1 a b) = Except.ok (f (f2 a b)); rw [hf]

/-- A `Ref` key always resolves to the freshly reserved cell, and that cell
ends up bound to exactly the item the rule built. -/
theorem doBuildGrammar_ref_ok {fu : Nat} {g : Grammar} {r : Rule} {s : BState}
    {h : Nat} {s' : BState}
    (hb : doBuildGrammar (fu + 1) g (.ref r) s = .ok (h, s')) :
    h = s.cells.length ∧ ∃ it s₂, buildItem fu g r (allocState s) = .ok (it, s₂) ∧
      s' = setCell s₂ h it ∧ getCell s' h = some it := by
  rw [doBuildGrammar, except_map_ok] at hb
  obtain ⟨⟨it, s₂⟩, hbi, heq⟩ := hb
  injection heq with h1 h2
  subst h1; subst h2
  refine ⟨rfl, it, s₂, hbi, rfl, ?_⟩
  have hfr := (buildFrame fu).2 _ _ _ _ _ hbi
  have hcell : s₂.cells[s.cells.length]? = some OnceCell.new := by
    have hpre := hfr.2 s.cells.length (by simp)
    rw [hpre]
    simp [List.getElem?_append]
  show getCell (setCell s₂ s.cells.length it) s.cells.length = some it
  rw [getCell]
  simp only [setCell_cells, modifyAt_getElem_self, hcell]
  rfl

/-! ### Witness scaffolding: concrete grammars and result projections -/

/-- A one-rule grammar whose rule `"a"` references itself by name. -/
def wG : Grammar := [("a", Rule.seq "a" [RuleKey.lookup "a"])]

/-- A root rule referencing the name `"a"` twice. -/
def wR : Rule := Rule.seq "root" [RuleKey.lookup "a", RuleKey.lookup "a"]

/-- Projection of a build-step result onto its final state. -/
def stateOf (e : Except BuildError (Nat × BState)) : BState :=
  match e with
  | .ok q => q.2
  | .error _ => initState

/-- Projection of a `buildItem` result onto its item/state pair. -/
def biOf (e : Except BuildError (Item × BState)) : Item × BState :=
  match e with
  | .ok q => q
  | .error _ => ({ combinator := .done, cls := .normal, name := "" }, initState)

/-- Projection of a `buildItems` result onto its `ItemSet`. -/
def itsOf (e : Except BuildError ItemSet) : ItemSet :=
  match e with
  | .ok a => a
  | .error _ => { root := 0, cells := [] }

/-! ### The claims -/

/-- C8: once a forward-reference cell has been bound to `v`, any later bind
attempt leaves the cell unchanged (`ForwardCell::set` discards the
`OnceCell::set` error with `.ok()`), so `ForwardRef::get` still returns `v`;
before any bind, `get` returns `none`. -/
theorem once_cell_write_once (T : Type) (c : OnceCell T) (v w : T)
    (hv : OnceCell.get c = some v) :
    OnceCell.set c w = c ∧ OnceCell.get (OnceCell.set c w) = some v ∧
    OnceCell.get (OnceCell.new : OnceCell T) = none := by
  cases c with
  | none => simp [OnceCell.get] at hv
  | some x =>
    obtain rfl : x = v := by simpa [OnceCell.get] using hv
    exact ⟨rfl, hv, rfl⟩

/-- C8 witness: bind 3, then attempt to bind 5 — the cell still holds 3;
a fresh cell reads as `none`. -/
theorem once_cell_write_once_witness :
    OnceCell.set (OnceCell.set (OnceCell.new : OnceCell Nat) 3) 5 =
        OnceCell.set (OnceCell.new : OnceCell Nat) 3 ∧
    OnceCell.get (OnceCell.set (OnceCell.set (OnceCell.new : OnceCell Nat) 3) 5) = some 3 ∧
    OnceCell.get (OnceCell.new : OnceCell Nat) = none :=
  once_cell_write_once Nat (OnceCell.set OnceCell.new 3) 3 5 rfl

/-- C10: building the Elide wrapper around any rule produces an item whose
display name is the literal "(elided)", discarding the wrapped rule's own
name. -/
theorem elide_discards_name (fuel : Nat) (g : Grammar) (r : Rule) (s : BState)
    (it : Item) (s' : BState)
    (hb : buildItem fuel g (.elide r) s = .ok (it, s')) :
    it.name = "(elided)" := by
  cases fuel with
  | zero => simp [buildItem] at hb
  | succ fu =>
    rw [buildItem, except_map_ok] at hb
    obtain ⟨⟨it₀, s₂⟩, _, heq⟩ := hb
    injection heq with e1 e2
    subst e1
    rfl

/-- C10 witness: Elide over Terminal('2') (whose own display name is "2")
is named "(elided)". -/
theorem elide_discards_name_witness :
    buildItem 2 [] (Rule.elide (Rule.term 50)) initState =
      .ok ({ combinator := Combinator.term 50, cls := Class.elide, name := "(elided)" },
        initState) ∧
    ({ combinator := Combinator.term 50, cls := Class.elide, name := "(elided)" } : Item).name
      = "(elided)" :=
  ⟨by decide,
   elide_discards_name 2 [] (Rule.term 50) initState
     { combinator := Combinator.term 50, cls := Class.elide, name := "(elided)" }
     initState (by decide)⟩

/-- C6 counterexample: the Elide wrapper does not override *only* the Class.
Over Terminal('2') the unwrapped item is named "2", but the elided item is
named "(elided)": the built item differs from the unwrapped item with its
Class overridden to Elide. -/
theorem elide_changes_more_than_class :
    buildItem 2 [] (Rule.elide (Rule.term 50)) initState =
      .ok ({ combinator := Combinator.term 50, cls := Class.elide, name := "(elided)" },
        initState) ∧
    buildItem 1 [] (Rule.term 50) initState =
      .ok ({ combinator := Combinator.term 50, cls := Class.normal, name := "2" },
        initState) ∧
    ({ combinator := Combinator.term 50, cls := Class.elide, name := "(elided)" } : Item) ≠
      { combinator := Combinator.term 50, cls := Class.elide, name := "2" } :=
  ⟨by decide, by decide, by decide⟩

/-- C6 (amended): wrapping any rule in Elide and building preserves the
Combinator of the unwrapped rule's item exactly and overrides its Class to
Elide, but it also replaces the display name with "(elided)" (the wrapped
rule's name is discarded; see C10). -/
theorem elide_overrides (fuel : Nat) (g : Grammar) (r : Rule) (s : BState)
    (it₀ : Item) (s' : BState) (hb : buildItem fuel g r s = .ok (it₀, s')) :
    buildItem (fuel + 1) g (.elide r) s =
      .ok ({ combinator := it₀.combinator, cls := Class.elide, name := "(elided)" }, s') := by
  rw [buildItem, hb]
  rfl

/-- C6 amended-claim witness at Terminal('2'). -/
theorem elide_overrides_witness :
    buildItem 2 [] (Rule.elide (Rule.term 50)) initState =
      .ok ({ combinator := Combinator.term 50, cls := Class.elide, name := "(elided)" },
        initState) :=
  elide_overrides 1 [] (Rule.term 50) initState
    { combinator := Combinator.term 50, cls := Class.normal, name := "2" } initState
    (by decide)

/-- C3: `Term::build_item` computes the item's display name with
`String::from_utf8(vec![b]).unwrap()`.  For b = 0xFF this `unwrap` panics
(a lone byte ≥ 0x80 is not valid UTF-8), so building Terminal(0xFF) does
not succeed, contradicting the claim for the non-ASCII half of the byte
range; for ASCII bytes (here 0x00 and 0x32 = '2') the build succeeds with
Combinator `Term(b)` and Class Normal as claimed. -/
theorem term_build_panics_on_nonascii :
    buildItem 1 [] (Rule.term 255) initState = .error (BuildError.invalidUtf8Name 255) ∧
    buildItem 1 [] (Rule.term 0) initState =
      .ok ({ combinator := Combinator.term 0, cls := Class.normal, name := "\x00" },
        initState) ∧
    buildItem 1 [] (Rule.term 50) initState =
      .ok ({ combinator := Combinator.term 50, cls := Class.normal, name := "2" },
        initState) :=
  ⟨by decide, by decide, by decide⟩

/-- C9: building the same root rule against the same grammar twice, each
from a fresh arena, yields structurally equal graphs — the same root handle
and cell-for-cell identical items (hence the same Combinator shapes, Class
tags and topology).  The embedding is an exact function of the rule and
grammar because the Rust build is single-threaded and never observes map
iteration order or allocation addresses. -/
theorem build_deterministic (fuel : Nat) (g : Grammar) (r : Rule) (a b : ItemSet)
    (ha : buildItems fuel g r = .ok a) (hb : buildItems fuel g r = .ok b) :
    a.root = b.root ∧ a.cells = b.cells := by
  rw [ha] at hb
  injection hb with h
  rw [h]
  exact ⟨rfl, rfl⟩

/-- C9 witness: two builds of the self-recursive grammar `wG` from fresh
arenas agree. -/
theorem build_deterministic_witness :
    (itsOf (buildItems 12 wG wR)).root = (itsOf (buildItems 12 wG wR)).root ∧
    (itsOf (buildItems 12 wG wR)).cells = (itsOf (buildItems 12 wG wR)).cells :=
  build_deterministic 12 wG wR (itsOf (buildItems 12 wG wR)) (itsOf (buildItems 12 wG wR))
    (by decide) (by decide)

/-- C1: during one graph build (a run of `do_build_grammar` on the root
`Ref` key from a fresh builder state), each distinct named rule is resolved
at most once and all references to a name return the same handle.  The
ghost field `resolved` records each invocation of a named rule's
`build_item` (the memo-miss branch, which memoizes the fresh handle before
recursing); the ghost field `hits` records the handle returned for every
`Lookup` resolution, hits and misses alike, including self-references
occurring during the rule's own resolution.  `resolved.Nodup` says
`build_item` ran at most once per name; the agreement of `hits` says all N
references carry the same handle; the last conjunct says every referenced
name's handle is the one whose `build_item` ran, so a name referenced
N ≥ 2 times had `build_item` run exactly once. -/
theorem single_resolution (fuel : Nat) (g : Grammar) (r : Rule) (h : Nat) (s : BState)
    (hb : doBuildGrammar fuel g (.ref r) initState = .ok (h, s)) :
    s.resolved.Nodup ∧
    (∀ n h₁ h₂, (n, h₁) ∈ s.hits → (n, h₂) ∈ s.hits → h₁ = h₂) ∧
    (∀ n h', (n, h') ∈ s.hits → n ∈ s.resolved) := by
  have hInv0 : Inv initState := by
    constructor
    · exact List.nodup_nil
    · intro n
      show (findHandle [] n).isSome ↔ n ∈ ([] : List String)
      simp [findHandle]
    · intro n hh hmem
      simp [initState] at hmem
  have hres := (buildInv fuel).1 _ _ _ _ _ hb hInv0
  obtain ⟨hInv, _⟩ := hres
  refine ⟨hInv.nodup, ?_, ?_⟩
  · intro n h₁ h₂ hm₁ hm₂
    have e₁ := hInv.hitsOk n h₁ hm₁
    have e₂ := hInv.hitsOk n h₂ hm₂
    rw [e₁] at e₂
    injection e₂
  · intro n h' hm
    have e := hInv.hitsOk n h' hm
    refine (hInv.memIff n).mp ?_
    rw [e]
    rfl

/-- C1 witness: in `wG` the rule `"a"` references itself by name and the
root references `"a"` twice; `build_item` for `"a"` ran once
(`resolved = ["a"]`) and every one of the three recorded references
returned handle 1. -/
theorem single_resolution_witness :
    doBuildGrammar 12 wG (.ref wR) initState =
      .ok (0, stateOf (doBuildGrammar 12 wG (.ref wR) initState)) ∧
    (stateOf (doBuildGrammar 12 wG (.ref wR) initState)).resolved.Nodup ∧
    "a" ∈ (stateOf (doBuildGrammar 12 wG (.ref wR) initState)).resolved :=
  ⟨by decide,
   (single_resolution 12 wG wR 0 (stateOf (doBuildGrammar 12 wG (.ref wR) initState))
     (by decide)).1,
   (single_resolution 12 wG wR 0 (stateOf (doBuildGrammar 12 wG (.ref wR) initState))
     (by decide)).2.2 "a" 1 (by decide)⟩

/-- C2: resolving a `Named` key whose name has no grammar entry fails with
the distinguishable `UnknownRuleName` failure (the `unwrap` panic on
`grammar.get(k)`, embedded as `BuildError.unknownRuleName`), and
`build_items` over a rule referencing such a name propagates that failure
and never returns an `ItemSet` — in particular no dangling root handle is
handed out. -/
theorem unknown_name_fails (fuel : Nat) (g : Grammar) (name nm : String)
    (ks : List RuleKey) (s : BState)
    (hg : grammarGet g name = none) (hs : findHandle s.lookup name = none) :
    doBuildGrammar (fuel + 1) g (.lookup name) s = .error (.unknownRuleName name) ∧
    buildItems (fuel + 3) g (.seq nm (.lookup name :: ks)) = .error (.unknownRuleName name) ∧
    ∀ its, buildItems (fuel + 3) g (.seq nm (.lookup name :: ks)) ≠ .ok its := by
  have herr : ∀ s₀ : BState, findHandle s₀.lookup name = none →
      doBuildGrammar (fuel + 1) g (.lookup name) s₀ = .error (.unknownRuleName name) := by
    intro s₀ h₀
    rw [doBuildGrammar, h₀, hg]
  have h2 : buildItem (fuel + 1 + 1) g (.seq nm (.lookup name :: ks)) (allocState initState) =
      .error (.unknownRuleName name) := by
    rw [buildItem, herr (allocState initState) rfl]
    rfl
  have h3 : doBuildGrammar (fuel + 1 + 1 + 1) g (.ref (.seq nm (.lookup name :: ks)))
      initState = .error (.unknownRuleName name) := by
    rw [doBuildGrammar, h2]
    rfl
  have h4 : buildItems (fuel + 3) g (.seq nm (.lookup name :: ks)) =
      .error (.unknownRuleName name) := by
    rw [buildItems]
    rw [show fuel + 3 = fuel + 1 + 1 + 1 from rfl, h3]
  refine ⟨herr s hs, h4, ?_⟩
  intro its hok
  rw [h4] at hok
  exact Except.noConfusion hok

/-- C2 witness: the empty grammar has no entry for "undefined". -/
theorem unknown_name_fails_witness :
    doBuildGrammar 1 [] (.lookup "undefined") initState =
      .error (.unknownRuleName "undefined") ∧
    buildItems 3 [] (.seq "root" [.lookup "undefined"]) =
      .error (.unknownRuleName "undefined") :=
  ⟨(unknown_name_fails 0 [] "undefined" "root" [] initState rfl rfl).1,
   (unknown_name_fails 0 [] "undefined" "root" [] initState rfl rfl).2.1⟩

/-- C4: building a Sequence over the empty list yields `Empty` with Class
Normal (and no state change); over a non-empty list it yields
`Seq(resolve(head), resolve(Ref(Elide(Sequence "(elided)" tail))))` with
Class Normal, and the tail handle's cell is bound to an Elide-classed item,
so the recursive expansion right-folds the list into a binary `Seq` chain
whose non-head nodes are Elide-classed. -/
theorem seq_expansion (fuel : Nat) (g : Grammar) (nm : String) (l : List RuleKey)
    (s : BState) (it : Item) (s' : BState)
    (hb : buildItem (fuel + 1) g (.seq nm l) s = .ok (it, s')) :
    it.cls = Class.normal ∧
    (l = [] → it.combinator = Combinator.empty ∧ s' = s) ∧
    (∀ k ks, l = k :: ks →
      ∃ h₁ s₁ h₂, doBuildGrammar fuel g k s = .ok (h₁, s₁) ∧
        doBuildGrammar fuel g (.ref (.elide (.seq "(elided)" ks))) s₁ = .ok (h₂, s') ∧
        it.combinator = Combinator.seq h₁ h₂ ∧
        ∃ it₂, getCell s' h₂ = some it₂ ∧ it₂.cls = Class.elide) := by
  cases l with
  | nil =>
    rw [buildItem] at hb
    injection hb with hp
    injection hp with h1 h2
    subst h1; subst h2
    exact ⟨rfl, fun _ => ⟨rfl, rfl⟩, fun k ks hcon => by simp at hcon⟩
  | cons k ks =>
    rw [buildItem, except_bind_ok] at hb
    obtain ⟨⟨h₁, s₁⟩, hd, hb2⟩ := hb
    rw [except_map_ok] at hb2
    obtain ⟨⟨h₂, s₂⟩, ht, heq⟩ := hb2
    injection heq with e1 e2
    subst e1; subst e2
    refine ⟨rfl, fun hcon => by simp at hcon, ?_⟩
    intro k' ks' hcon
    injection hcon with ek eks
    subst ek; subst eks
    refine ⟨h₁, s₁, h₂, hd, ht, rfl, ?_⟩
    cases fuel with
    | zero => simp [doBuildGrammar] at ht
    | succ fv =>
      obtain ⟨hh2, it₂, s₃, hbi, hset, hget⟩ := doBuildGrammar_ref_ok ht
      cases fv with
      | zero => simp [buildItem] at hbi
      | succ fw =>
        rw [buildItem, except_map_ok] at hbi
        obtain ⟨⟨it₀, s₄⟩, _, heq2⟩ := hbi
        injection heq2 with f1 f2
        subst f1
        exact ⟨_, hget, rfl⟩

/-- C4 witness: a two-element sequence of terminals builds with Class
Normal. -/
theorem seq_expansion_witness :
    buildItem 10 [] (Rule.seq "s2" [RuleKey.ref (Rule.term 50), RuleKey.ref (Rule.term 51)])
        initState =
      .ok (biOf (buildItem 10 []
        (Rule.seq "s2" [RuleKey.ref (Rule.term 50), RuleKey.ref (Rule.term 51)]) initState)) ∧
    (biOf (buildItem 10 []
      (Rule.seq "s2" [RuleKey.ref (Rule.term 50), RuleKey.ref (Rule.term 51)])
        initState)).1.cls = Class.normal :=
  ⟨by decide,
   (seq_expansion 9 [] "s2" [RuleKey.ref (Rule.term 50), RuleKey.ref (Rule.term 51)]
     initState
     (biOf (buildItem 10 []
       (Rule.seq "s2" [RuleKey.ref (Rule.term 50), RuleKey.ref (Rule.term 51)]) initState)).1
     (biOf (buildItem 10 []
       (Rule.seq "s2" [RuleKey.ref (Rule.term 50), RuleKey.ref (Rule.term 51)]) initState)).2
     (by decide)).1⟩

/-- C7: a Sequence of one element (and likewise a Choice of one element)
never degenerates to a bare `resolve(r)`: it builds
`Seq(resolve(r), resolve(tail))` where the tail cell is always
materialized and is bound to an item whose Combinator is `Empty` (and whose
Class is Elide). -/
theorem singleton_materializes_tail (fuel : Nat) (g : Grammar) (nm : String)
    (k : RuleKey) (s : BState) :
    (∀ it s', buildItem (fuel + 1) g (.seq nm [k]) s = .ok (it, s') →
      ∃ h₁ h₂, it.combinator = Combinator.seq h₁ h₂ ∧
        getCell s' h₂ =
          some { combinator := Combinator.empty, cls := Class.elide, name := "(elided)" }) ∧
    (∀ p it s', buildItem (fuel + 1) g (.choice nm [k] p) s = .ok (it, s') →
      ∃ h₁ h₂, it.combinator = Combinator.seq h₁ h₂ ∧
        getCell s' h₂ =
          some { combinator := Combinator.empty, cls := Class.elide, name := "(elided)" }) := by
  constructor
  · intro it s' hb
    rw [buildItem, except_bind_ok] at hb
    obtain ⟨⟨h₁, s₁⟩, hd, hb2⟩ := hb
    rw [except_map_ok] at hb2
    obtain ⟨⟨h₂, s₂⟩, ht, heq⟩ := hb2
    injection heq with e1 e2
    subst e1; subst e2
    refine ⟨h₁, h₂, rfl, ?_⟩
    cases fuel with
    | zero => simp [doBuildGrammar] at ht
    | succ fv =>
      obtain ⟨hh2, it₂, s₃, hbi, hset, hget⟩ := doBuildGrammar_ref_ok ht
      cases fv with
      | zero => simp [buildItem] at hbi
      | succ fw =>
        rw [buildItem, except_map_ok] at hbi
        obtain ⟨⟨it₀, s₄⟩, hinner, heq2⟩ := hbi
        cases fw with
        | zero => simp [buildItem] at hinner
        | succ fx =>
          rw [buildItem] at hinner
          injection hinner with hp
          injection hp with g1 g2
          subst g1; subst g2
          injection heq2 with f1 f2
          subst f1
          exact hget
  · intro p it s' hb
    rw [buildItem, except_bind_ok] at hb
    obtain ⟨⟨h₁, s₁⟩, hd, hb2⟩ := hb
    rw [except_map_ok] at hb2
    obtain ⟨⟨h₂, s₂⟩, ht, heq⟩ := hb2
    injection heq with e1 e2
    subst e1; subst e2
    refine ⟨h₁, h₂, rfl, ?_⟩
    cases fuel with
    | zero => simp [doBuildGrammar] at ht
    | succ fv =>
      obtain ⟨hh2, it₂, s₃, hbi, hset, hget⟩ := doBuildGrammar_ref_ok ht
      cases fv with
      | zero => simp [buildItem] at hbi
      | succ fw =>
        rw [buildItem, except_map_ok] at hbi
        obtain ⟨⟨it₀, s₄⟩, hinner, heq2⟩ := hbi
        cases fw with
        | zero => simp [buildItem] at hinner
        | succ fx =>
          rw [buildItem] at hinner
          injection hinner with hp
          injection hp with g1 g2
          subst g1; subst g2
          injection heq2 with f1 f2
          subst f1
          exact hget

/-- C7 witness: `Sequence ["2"-terminal]` builds a `Seq` whose tail cell is
an Empty, Elide-classed item. -/
theorem singleton_materializes_tail_witness :
    ∃ h₁ h₂,
      (biOf (buildItem 10 [] (Rule.seq "s1" [RuleKey.ref (Rule.term 50)]) initState)).1.combinator
        = Combinator.seq h₁ h₂ ∧
      getCell (biOf (buildItem 10 [] (Rule.seq "s1" [RuleKey.ref (Rule.term 50)]) initState)).2
          h₂ =
        some { combinator := Combinator.empty, cls := Class.elide, name := "(elided)" } :=
  (singleton_materializes_tail 9 [] "s1" (RuleKey.ref (Rule.term 50)) initState).1
    (biOf (buildItem 10 [] (Rule.seq "s1" [RuleKey.ref (Rule.term 50)]) initState)).1
    (biOf (buildItem 10 [] (Rule.seq "s1" [RuleKey.ref (Rule.term 50)]) initState)).2
    (by decide)

/-- C5: building a Choice is structurally identical to building the
Sequence over the same list — byte-for-byte the same resolutions, the same
arena allocations, the same `Seq`-chain Combinator (the Rust `Choice`
expansion literally produces `Combinator::Seq` nodes) and the same display
name — except that the top-level Class is Passthrough when the passthrough
flag is set and Normal otherwise. -/
theorem choice_matches_seq : ∀ (fuel : Nat) (g : Grammar) (nm : String)
    (l : List RuleKey) (p : Bool) (s : BState),
    buildItem fuel g (.choice nm l p) s =
      (buildItem fuel g (.seq nm l) s).map
        (fun q => ({ combinator := q.1.combinator,
                     cls := if p then Class.passthrough else Class.normal,
                     name := q.1.name }, q.2)) := by
  intro fuel
  induction fuel using Nat.strong_induction_on with
  | _ fuel ih =>
    intro g nm l p s
    cases fuel with
    | zero => rfl
    | succ fu =>
      cases l with
      | nil => rfl
      | cons k ks =>
        have htail : ∀ s₁ : BState,
            doBuildGrammar fu g (.ref (.elide (.choice "(elided)" ks false))) s₁ =
            doBuildGrammar fu g (.ref (.elide (.seq "(elided)" ks))) s₁ := by
          intro s₁
          cases fu with
          | zero => rfl
          | succ fv =>
            simp only [doBuildGrammar]
            congr 1
            cases fv with
            | zero => rfl
            | succ fw =>
              simp only [buildItem]
              rw [ih fw (by omega) g "(elided)" ks false (allocState s₁)]
              rw [except_map_map]
        simp only [buildItem, htail]
        exact except_bind_map _ _ _ _ _ (fun a b => rfl)

end Quentin
